import Mathlib

/-!
# instrumentation-examples: exporter and direct instrumentation

A shallow embedding of the two sample programs

* `exporter/main.go`: a custom collector `randomNumber` whose `Collect` emits a
  freshly drawn gauge sample for the first five collection passes and nothing
  afterwards, counting the passes in the package variable `collectCounter`;
* `direct-instrumentation/main.go`: a gauge that a background loop overwrites
  with a freshly drawn value.

Conventions.

* Go's `int` is a two's-complement integer of 32 or 64 bits.  `collectCounter`
  is an `Int` and `collectCounter++` wraps (`wrapInt`); the width is the field
  `intBits` of the environment.
* `float64` samples are rationals; the programs never compute with them.
* `math/rand.Float64` reads and advances the global source; the source is a
  value of an arbitrary type `G` and the draw a function `G → ℚ × G`.
* A channel send is recorded in the list of values a call has sent.
* A Go panic is the `error` case of `Except String`.
* A `*prometheus.Desc` is an `Option Desc`, `none` being the nil pointer.
* The namespace `prometheus` holds the few functions of the client library the
  programs call (`BuildFQName`, `NewDesc`, `MustNewConstMetric`, `Gauge.Set`);
  they belong to the library, not to this repository, and follow its
  documented behaviour.
-/

set_option linter.unusedVariables false
set_option linter.dupNamespace false

/-! ## Go's `int` -/

/-- Smallest value of a signed integer of `bits` bits. -/
def minInt (bits : Nat) : Int := -(2 : Int) ^ (bits - 1)

/-- Largest value of a signed integer of `bits` bits. -/
def maxInt (bits : Nat) : Int := (2 : Int) ^ (bits - 1) - 1

/-- Two's-complement wrap-around of an integer result to `bits` bits. -/
def wrapInt (bits : Nat) (x : Int) : Int :=
  (x + (2 : Int) ^ (bits - 1)) % (2 : Int) ^ bits - (2 : Int) ^ (bits - 1)

/-- The environment of a run: the width of `int` on the platform and
`math/rand.Float64` as a function of the global source. -/
structure Env (G : Type) where
  intBits : Nat
  Float64 : G → ℚ × G

/-! ## The client library, as far as the programs call it -/

namespace prometheus

/-- Constant labels, `prometheus.Labels`: label name and label value. -/
abbrev Labels := List (String × String)

/-- Descriptor, `prometheus.Desc`: the immutable metadata of a metric.  `err`
is set by `NewDesc` when the metadata is inconsistent. -/
structure Desc where
  fqName : String
  help : String
  constLabelPairs : Labels
  variableLabels : List String
  err : Option String
deriving DecidableEq, Repr

/-- Value kinds, `prometheus.ValueType`. -/
inductive ValueType where
  | CounterValue
  | GaugeValue
  | UntypedValue
deriving DecidableEq, Repr

/-- Constant metric, the value `NewConstMetric` builds: a descriptor, a value
kind, a value and the values of the variable labels. -/
structure Metric where
  desc : Desc
  valType : ValueType
  val : ℚ
  labelValues : List String
deriving DecidableEq

/-- Library function `prometheus.BuildFQName`: joins the non-empty components of
a metric name with an underscore; an empty `name` gives the empty string. -/
def BuildFQName (ns subsystem name : String) : String :=
  if name = "" then ""
  else if ns ≠ "" ∧ subsystem ≠ "" then ns ++ "_" ++ subsystem ++ "_" ++ name
  else if ns ≠ "" then ns ++ "_" ++ name
  else if subsystem ≠ "" then subsystem ++ "_" ++ name
  else name

/-- Library check of a metric name: it matches `[a-zA-Z_:][a-zA-Z0-9_:]*`. -/
def IsValidMetricName (s : String) : Bool :=
  match s.toList with
  | [] => false
  | c :: cs =>
    (c.isAlpha || c == '_' || c == ':') &&
      cs.all (fun d => d.isAlpha || d.isDigit || d == '_' || d == ':')

/-- Library check of a label name: it matches `[a-zA-Z_][a-zA-Z0-9_]*` and does
not start with `__`. -/
def checkLabelName (s : String) : Bool :=
  match s.toList with
  | [] => false
  | c :: cs =>
    (c.isAlpha || c == '_') &&
      cs.all (fun d => d.isAlpha || d.isDigit || d == '_') &&
      !("__".toList.isPrefixOf (c :: cs))

/-- Library function `prometheus.NewDesc`: builds a descriptor.  The descriptor
carries an error when the metric name or a label name is invalid or a label name
occurs twice. -/
def NewDesc (fqName help : String) (variableLabels : List String)
    (constLabels : Labels) : Desc :=
  let d : Desc := ⟨fqName, help, [], variableLabels, none⟩
  if !IsValidMetricName fqName then
    { d with err := some (fqName ++ " is not a valid metric name") }
  else
    match (constLabels.map Prod.fst).find? (fun l => !checkLabelName l) with
    | some l => { d with err := some (l ++ " is not a valid label name for metric " ++ fqName) }
    | none =>
      match variableLabels.find? (fun l => !checkLabelName l) with
      | some l => { d with err := some (l ++ " is not a valid label name for metric " ++ fqName) }
      | none =>
        if (constLabels.map Prod.fst ++ variableLabels).Nodup then
          { d with constLabelPairs := constLabels }
        else
          { d with err := some "duplicate label names" }

/-- Library function `prometheus.NewConstMetric`: builds a constant metric; an
error when the descriptor carries one or the number of label values differs from
the number of variable labels. -/
def NewConstMetric (desc : Option Desc) (valueType : ValueType) (value : ℚ)
    (labelValues : List String) : Except String Metric :=
  match desc with
  | none => .error "invalid memory address or nil pointer dereference"
  | some d =>
    match d.err with
    | some e => .error e
    | none =>
      if labelValues.length ≠ d.variableLabels.length then
        .error "inconsistent label cardinality"
      else
        .ok ⟨d, valueType, value, labelValues⟩

/-- Library function `prometheus.MustNewConstMetric`: as `NewConstMetric`, but
its error is a panic. -/
def MustNewConstMetric (desc : Option Desc) (valueType : ValueType) (value : ℚ)
    (labelValues : List String) : Except String Metric :=
  NewConstMetric desc valueType value labelValues

end prometheus

/-! ## `exporter/main.go` -/

namespace exporter

open prometheus

/-- The collector type `randomNumber`: one field, a descriptor pointer. -/
structure randomNumber where
  randomNumber : Option Desc
deriving DecidableEq

/-- The package variable `randomNumberDesc`. -/
def randomNumberDesc : Option Desc :=
  some (NewDesc (BuildFQName "random" "number" "generated")
    "A randomly generated number" [] [("app", "random_number_generator")])

/-- The collector `main` builds and registers. -/
def collector : randomNumber := { randomNumber := randomNumberDesc }

/-- The mutable state of the process: the package variable `collectCounter`,
the global random source, and the lines written by `log.Printf`. -/
structure World (G : Type) where
  collectCounter : Int
  randSrc : G
  log : List String

/-- The state at process start: `collectCounter` has Go's zero value. -/
def processStart {G : Type} (g : G) (log : List String) : World G :=
  { collectCounter := 0, randSrc := g, log := log }

/-- The line `log.Printf("Collect Counter: %d\n", c)` writes, without the time
stamp. -/
def logLine (c : Int) : String := "Collect Counter: " ++ toString c ++ "\n"

/-- `Describe` sends the receiver's descriptor field on the channel. -/
def randomNumber.Describe {G : Type} (r : exporter.randomNumber) (w : World G) :
    World G × List (Option Desc) :=
  (w, [r.randomNumber])

/-- `Collect` logs the counter, sends one constant gauge metric with a freshly
drawn value when the counter is below 5, and increments the counter. -/
def randomNumber.Collect {G : Type} (env : Env G) (r : exporter.randomNumber) (w : World G) :
    Except String (World G × List Metric) := do
  let w1 : World G := { w with log := w.log ++ [logLine w.collectCounter] }
  let (w2, ch) ←
    if w1.collectCounter < 5 then do
      let (x, g) := env.Float64 w1.randSrc
      let m ← MustNewConstMetric randomNumberDesc ValueType.GaugeValue x []
      pure ({ w1 with randSrc := g }, [m])
    else
      pure (w1, [])
  pure ({ w2 with collectCounter := wrapInt env.intBits (w2.collectCounter + 1) }, ch)


/-- One call the registry makes on a collector. -/
inductive Call where
  | Collect
  | Describe
deriving DecidableEq, Repr

/-- What one call has sent on its channel. -/
inductive Sent where
  | metrics (ms : List Metric)
  | descs (ds : List (Option Desc))
deriving DecidableEq

/-- The metrics among what a call has sent. -/
def Sent.samples : Sent → List Metric
  | Sent.metrics ms => ms
  | Sent.descs _ => []

/-- One call of `r.Collect` or `r.Describe` in the state `w`. -/
def call {G : Type} (env : Env G) (r : exporter.randomNumber) :
    Call → World G → Except String (World G × Sent)
  | Call.Collect, w => do
    let (w1, ms) ← r.Collect env w
    pure (w1, Sent.metrics ms)
  | Call.Describe, w =>
    let (w1, ds) := r.Describe w
    pure (w1, Sent.descs ds)

/-- A sequential run: the calls are made one after the other, each in the state
the one before has left; the result is the final state and what each call has
sent, in order. -/
def run {G : Type} (env : Env G) (r : exporter.randomNumber) :
    List Call → World G → Except String (World G × List Sent)
  | [], w => pure (w, [])
  | c :: cs, w => do
    let (w1, o) ← call env r c w
    let (w2, os) ← run env r cs w1
    pure (w2, o :: os)

/-- The `n`-th call (counted from 1) of a sequential run of `Collect` calls that
starts in the state `w`: the new state and what that call has sent. -/
def nthCollect {G : Type} (env : Env G) (r : exporter.randomNumber) (n : Nat)
    (w : World G) : Except String (World G × List Metric) := do
  let (w1, _) ← run env r (List.replicate (n - 1) Call.Collect) w
  r.Collect env w1

/-! ### Overlapping calls of `Collect`

`Collect` reads `collectCounter` three times (for the log line, in the test and
in the increment) and writes it once.  The package variable is not guarded, so
the reads and the write of calls that overlap interleave.  A call is a little
program of five steps and a schedule says which call moves next. -/

/-- Where a call of `Collect` stands: before the log line, before the test,
before the send, before the read of `collectCounter++`, before its write
(holding the value read), or returned. -/
inductive PC where
  | log
  | test
  | send
  | load
  | store (v : Int)
  | done
deriving DecidableEq, Repr

/-- A call of `Collect` in progress: its position and what it has sent on its
channel so far. -/
structure Thread where
  pc : PC
  ch : List Metric
deriving DecidableEq

/-- A call of `Collect` that has not started. -/
def Thread.start : Thread := { pc := PC.log, ch := [] }

/-- One step of a call of `Collect` on the shared state. -/
def stepThread {G : Type} (env : Env G) (w : World G) (t : Thread) :
    Except String (World G × Thread) :=
  match t.pc with
  | PC.log =>
    pure ({ w with log := w.log ++ [logLine w.collectCounter] }, { t with pc := PC.test })
  | PC.test =>
    if w.collectCounter < 5 then pure (w, { t with pc := PC.send })
    else pure (w, { t with pc := PC.load })
  | PC.send => do
    let (x, g) := env.Float64 w.randSrc
    let m ← MustNewConstMetric randomNumberDesc ValueType.GaugeValue x []
    pure ({ w with randSrc := g }, { pc := PC.load, ch := t.ch ++ [m] })
  | PC.load => pure (w, { t with pc := PC.store w.collectCounter })
  | PC.store v =>
    pure ({ w with collectCounter := wrapInt env.intBits (v + 1) }, { t with pc := PC.done })
  | PC.done => pure (w, t)

/-- The shared state and the calls in progress. -/
structure Conc (G : Type) where
  world : World G
  threads : List Thread

/-- The call number `i` makes one step; a number that names no call does
nothing. -/
def stepConc {G : Type} (env : Env G) (i : Nat) (s : Conc G) : Except String (Conc G) :=
  match s.threads[i]? with
  | none => pure s
  | some t => do
    let (w1, t1) ← stepThread env s.world t
    pure { world := w1, threads := s.threads.set i t1 }

/-- The calls move in the order the schedule gives. -/
def runSchedule {G : Type} (env : Env G) : List Nat → Conc G → Except String (Conc G)
  | [], s => pure s
  | i :: is, s => do
    let s1 ← stepConc env i s
    runSchedule env is s1

/-- `n` calls of `Collect` that have not started, in the state `w`. -/
def Conc.init {G : Type} (w : World G) (n : Nat) : Conc G :=
  { world := w, threads := List.replicate n Thread.start }

/-- The schedule in which the calls `0`, ..., `n - 1` do not overlap: each makes
its five steps before the next one starts. -/
def serialSchedule (n : Nat) : List Nat :=
  (List.range n).flatMap (fun i => List.replicate 5 i)

/-- The schedule in which `n` calls overlap completely: all make their first
step, then all their second, and so on. -/
def lockstepSchedule (n : Nat) : List Nat :=
  (List.range 5).flatMap (fun _ => List.range n)

/-- The number of samples all calls together have sent. -/
def Conc.samples {G : Type} (s : Conc G) : Nat :=
  (s.threads.map (fun t => t.ch.length)).sum

/-- An environment to run the programs in: `int` has 64 bits and the `g`-th draw
of the random source is `1 / (g + 2)`. -/
def env64 : Env Nat := { intBits := 64, Float64 := fun g => (1 / ((g : ℚ) + 2), g + 1) }

end exporter

/-! ## `direct-instrumentation/main.go` -/

namespace prometheus

/-- The options `NewGauge` takes, `prometheus.GaugeOpts`. -/
structure GaugeOpts where
  Namespace : String
  Subsystem : String
  Name : String
  Help : String
  ConstLabels : Labels

/-- Gauge: a descriptor and the one value it stores. -/
structure Gauge where
  desc : Desc
  val : ℚ
deriving DecidableEq

/-- Library function `prometheus.NewGauge`: a new gauge stores the value 0. -/
def NewGauge (opts : GaugeOpts) : Gauge :=
  { desc := NewDesc (BuildFQName opts.Namespace opts.Subsystem opts.Name) opts.Help []
      opts.ConstLabels,
    val := 0 }

/-- Library method `Gauge.Set`: overwrites the stored value. -/
def Gauge.Set (g : Gauge) (v : ℚ) : Gauge := { g with val := v }

/-- A gauge is its own collector: it sends its descriptor. -/
def Gauge.Describe (g : Gauge) : List Desc := [g.desc]

/-- A gauge is its own collector: it sends one sample, the stored value. -/
def Gauge.Collect (g : Gauge) : List Metric := [⟨g.desc, ValueType.GaugeValue, g.val, []⟩]

end prometheus

namespace direct

open prometheus

/-- The package variable `randomNumber`, as `NewGauge` returns it. -/
def randomNumber : Gauge :=
  NewGauge { Namespace := "random", Subsystem := "number", Name := "generated",
             Help := "A randomly generated number",
             ConstLabels := [("app", "random_number_generator")] }

/-- The mutable state of the process: the gauge and the global random source. -/
structure World (G : Type) where
  randomNumber : Gauge
  randSrc : G

/-- The state at process start. -/
def processStart {G : Type} (g : G) : World G :=
  { randomNumber := direct.randomNumber, randSrc := g }

/-- One round of the loop of the goroutine `main` starts, up to the sleep: draw
a number and set the gauge to it. -/
def tick {G : Type} (env : Env G) (w : World G) : World G :=
  let (rnd, g) := env.Float64 w.randSrc
  { randomNumber := w.randomNumber.Set rnd, randSrc := g }

/-- A collection pass over the registered gauge. -/
def collect {G : Type} (w : World G) : World G × List Metric :=
  (w, w.randomNumber.Collect)

/-- `n` collection passes in a row, with no tick between them: the final state
and what each pass has collected. -/
def collects {G : Type} : Nat → World G → World G × List (List Metric)
  | 0, w => (w, [])
  | n + 1, w =>
    let (w1, ms) := collect w
    let (w2, mss) := collects n w1
    (w2, ms :: mss)

end direct

/-! ## Arithmetic of `wrapInt` -/

theorem two_pow_bits (bits : Nat) (hb : 0 < bits) :
    (2 : Int) ^ bits = 2 * (2 : Int) ^ (bits - 1) := by
  obtain ⟨k, rfl⟩ : ∃ k, bits = k + 1 := ⟨bits - 1, by omega⟩
  simp [pow_succ, mul_comm]

theorem two_pow_pos (k : Nat) : (0 : Int) < (2 : Int) ^ k := by positivity

theorem wrapInt_eq_self (bits : Nat) (hb : 0 < bits) (x : Int)
    (h1 : minInt bits ≤ x) (h2 : x ≤ maxInt bits) : wrapInt bits x = x := by
  unfold wrapInt
  unfold minInt at h1
  unfold maxInt at h2
  have hp := two_pow_bits bits hb
  have hpos := two_pow_pos (bits - 1)
  rw [hp]
  generalize (2 : Int) ^ (bits - 1) = M at *
  rw [Int.emod_eq_of_lt (by omega) (by omega)]
  omega

theorem wrapInt_wrapInt_add (bits : Nat) (x y : Int) :
    wrapInt bits (wrapInt bits x + y) = wrapInt bits (x + y) := by
  unfold wrapInt
  have h : (x + 2 ^ (bits - 1)) % 2 ^ bits - 2 ^ (bits - 1) + y + 2 ^ (bits - 1)
      = (x + 2 ^ (bits - 1)) % 2 ^ bits + y := by ring
  rw [h, Int.emod_add_emod]
  have h2 : x + 2 ^ (bits - 1) + y = x + y + 2 ^ (bits - 1) := by ring
  rw [h2]

theorem wrapInt_maxInt_succ (bits : Nat) (hb : 0 < bits) :
    wrapInt bits (maxInt bits + 1) = minInt bits := by
  unfold wrapInt maxInt minInt
  have hp := two_pow_bits bits hb
  have hpos := two_pow_pos (bits - 1)
  rw [hp]
  generalize (2 : Int) ^ (bits - 1) = M at *
  have : M - 1 + 1 + M = 2 * M := by ring
  rw [this, Int.emod_self]
  omega

theorem seven_le_maxInt (bits : Nat) (hb : bits = 32 ∨ bits = 64) : 7 ≤ maxInt bits := by
  rcases hb with rfl | rfl <;> decide

theorem minInt_le_zero (bits : Nat) : minInt bits ≤ 0 := by
  unfold minInt
  have := two_pow_pos (bits - 1)
  omega

theorem bits_pos (bits : Nat) (hb : bits = 32 ∨ bits = 64) : 0 < bits := by
  rcases hb with rfl | rfl <;> decide

/-! ## The collector, call by call -/

namespace exporter

open prometheus

theorem randomNumberDesc_eq :
    randomNumberDesc = some ⟨"random_number_generated", "A randomly generated number",
      [("app", "random_number_generator")], [], none⟩ := by decide

theorem mustNew_randomNumberDesc (vt : ValueType) (x : ℚ) :
    MustNewConstMetric randomNumberDesc vt x [] =
      Except.ok ⟨⟨"random_number_generated", "A randomly generated number",
        [("app", "random_number_generator")], [], none⟩, vt, x, []⟩ := by
  rw [randomNumberDesc_eq]
  rfl

theorem Collect_active {G : Type} (env : Env G) (r : exporter.randomNumber) (w : World G)
    (h : w.collectCounter < 5) :
    r.Collect env w = Except.ok
      (⟨wrapInt env.intBits (w.collectCounter + 1), (env.Float64 w.randSrc).2,
          w.log ++ [logLine w.collectCounter]⟩,
        [⟨⟨"random_number_generated", "A randomly generated number",
          [("app", "random_number_generator")], [], none⟩,
          ValueType.GaugeValue, (env.Float64 w.randSrc).1, []⟩]) := by
  simp only [randomNumber.Collect, h, if_true, mustNew_randomNumberDesc]
  rfl

theorem Collect_exhausted {G : Type} (env : Env G) (r : exporter.randomNumber) (w : World G)
    (h : 5 ≤ w.collectCounter) :
    r.Collect env w = Except.ok
      (⟨wrapInt env.intBits (w.collectCounter + 1), w.randSrc,
          w.log ++ [logLine w.collectCounter]⟩, []) := by
  have h' : ¬ w.collectCounter < 5 := by omega
  simp only [randomNumber.Collect, h', if_false]
  rfl

end exporter

namespace exporter

open prometheus

theorem Collect_eq {G : Type} (env : Env G) (r : exporter.randomNumber) (w : World G) :
    r.Collect env w = Except.ok
      (⟨wrapInt env.intBits (w.collectCounter + 1),
          if w.collectCounter < 5 then (env.Float64 w.randSrc).2 else w.randSrc,
          w.log ++ [logLine w.collectCounter]⟩,
        if w.collectCounter < 5 then
          [⟨⟨"random_number_generated", "A randomly generated number",
            [("app", "random_number_generator")], [], none⟩,
            ValueType.GaugeValue, (env.Float64 w.randSrc).1, []⟩]
        else []) := by
  by_cases h : w.collectCounter < 5
  · rw [Collect_active env r w h]; simp [h]
  · rw [Collect_exhausted env r w (by omega)]; simp [h]

theorem run_nil {G : Type} (env : Env G) (r : exporter.randomNumber) (w : World G) :
    run env r [] w = Except.ok (w, []) := rfl

theorem run_cons_ok {G : Type} (env : Env G) (r : exporter.randomNumber) (c : Call)
    (cs : List Call) (w w1 w2 : World G) (o : Sent) (os : List Sent)
    (h1 : call env r c w = Except.ok (w1, o)) (h2 : run env r cs w1 = Except.ok (w2, os)) :
    run env r (c :: cs) w = Except.ok (w2, o :: os) := by
  simp [run, h1, h2, bind, Except.bind, pure, Except.pure]

theorem call_Collect {G : Type} (env : Env G) (r : exporter.randomNumber) (w w1 : World G)
    (ms : List Metric) (h : r.Collect env w = Except.ok (w1, ms)) :
    call env r Call.Collect w = Except.ok (w1, Sent.metrics ms) := by
  simp only [call, h]
  rfl

theorem call_Describe {G : Type} (env : Env G) (r : exporter.randomNumber) (w : World G) :
    call env r Call.Describe w = Except.ok (w, Sent.descs [r.randomNumber]) := rfl

theorem run_append_ok {G : Type} (env : Env G) (r : exporter.randomNumber) :
    ∀ (cs ds : List Call) (w w1 w2 : World G) (os ps : List Sent),
      run env r cs w = Except.ok (w1, os) → run env r ds w1 = Except.ok (w2, ps) →
      run env r (cs ++ ds) w = Except.ok (w2, os ++ ps) := by
  intro cs
  induction cs with
  | nil =>
    intro ds w w1 w2 os ps h1 h2
    rw [run_nil] at h1
    cases h1
    simpa using h2
  | cons c cs ih =>
    intro ds w w1 w2 os ps h1 h2
    cases hc : call env r c w with
    | error e => simp [run, hc, bind, Except.bind] at h1
    | ok p =>
      obtain ⟨wa, o⟩ := p
      cases hr : run env r cs wa with
      | error e => simp [run, hc, hr, bind, Except.bind] at h1
      | ok q =>
        obtain ⟨wb, os'⟩ := q
        have h1' := run_cons_ok env r c cs w wa wb o os' hc hr
        rw [h1'] at h1
        cases h1
        have := ih ds wa w1 w2 os' ps hr h2
        exact run_cons_ok env r c (cs ++ ds) w wa w2 o (os' ++ ps) hc this

end exporter

namespace exporter

open prometheus

theorem call_total {G : Type} (env : Env G) (r : exporter.randomNumber) (c : Call)
    (w : World G) : ∃ w1 o, call env r c w = Except.ok (w1, o) := by
  cases c with
  | Collect => exact ⟨_, _, call_Collect env r w _ _ (Collect_eq env r w)⟩
  | Describe => exact ⟨_, _, call_Describe env r w⟩

theorem run_total {G : Type} (env : Env G) (r : exporter.randomNumber) :
    ∀ (cs : List Call) (w : World G), ∃ w1 os, run env r cs w = Except.ok (w1, os) := by
  intro cs
  induction cs with
  | nil => intro w; exact ⟨w, [], rfl⟩
  | cons c cs ih =>
    intro w
    obtain ⟨w1, o, h1⟩ := call_total env r c w
    obtain ⟨w2, os, h2⟩ := ih w1
    exact ⟨w2, o :: os, run_cons_ok env r c cs w w1 w2 o os h1 h2⟩

theorem run_cons_inv {G : Type} (env : Env G) (r : exporter.randomNumber) (c : Call)
    (cs : List Call) (w w2 : World G) (outs : List Sent)
    (h : run env r (c :: cs) w = Except.ok (w2, outs)) :
    ∃ w1 o os, call env r c w = Except.ok (w1, o) ∧ run env r cs w1 = Except.ok (w2, os) ∧
      outs = o :: os := by
  obtain ⟨w1, o, h1⟩ := call_total env r c w
  obtain ⟨w3, os, h2⟩ := run_total env r cs w1
  have h3 := run_cons_ok env r c cs w w1 w3 o os h1 h2
  rw [h3] at h
  cases h
  exact ⟨w1, o, os, h1, h2, rfl⟩

theorem call_Collect_inv {G : Type} (env : Env G) (r : exporter.randomNumber) (w w1 : World G)
    (o : Sent) (h : call env r Call.Collect w = Except.ok (w1, o)) :
    ∃ ms, r.Collect env w = Except.ok (w1, ms) ∧ o = Sent.metrics ms := by
  have h1 := call_Collect env r w _ _ (Collect_eq env r w)
  rw [h1] at h
  cases h
  exact ⟨_, Collect_eq env r w, rfl⟩

theorem Collect_counter {G : Type} (env : Env G) (r : exporter.randomNumber) (w w1 : World G)
    (ms : List Metric) (h : r.Collect env w = Except.ok (w1, ms)) :
    w1.collectCounter = wrapInt env.intBits (w.collectCounter + 1) ∧
      w1.log = w.log ++ [logLine w.collectCounter] ∧
      ms.length = (if w.collectCounter < 5 then 1 else 0) := by
  rw [Collect_eq] at h
  cases h
  refine ⟨rfl, rfl, ?_⟩
  split <;> rfl

theorem run_length {G : Type} (env : Env G) (r : exporter.randomNumber) :
    ∀ (cs : List Call) (w w1 : World G) (outs : List Sent),
      run env r cs w = Except.ok (w1, outs) → outs.length = cs.length := by
  intro cs
  induction cs with
  | nil => intro w w1 outs h; rw [run_nil] at h; cases h; rfl
  | cons c cs ih =>
    intro w w1 outs h
    obtain ⟨wa, o, os, _, h2, rfl⟩ := run_cons_inv env r c cs w w1 outs h
    simp [ih wa w1 os h2]

theorem run_counter {G : Type} (env : Env G) (r : exporter.randomNumber)
    (hb : 0 < env.intBits) :
    ∀ (cs : List Call) (w w1 : World G) (outs : List Sent),
      run env r cs w = Except.ok (w1, outs) → minInt env.intBits ≤ w.collectCounter →
      w.collectCounter + (cs.count Call.Collect : Nat) ≤ maxInt env.intBits →
      w1.collectCounter = w.collectCounter + (cs.count Call.Collect : Nat) := by
  intro cs
  induction cs with
  | nil => intro w w1 outs h _ _; rw [run_nil] at h; cases h; simp
  | cons c cs ih =>
    intro w w1 outs h hlo hhi
    obtain ⟨wa, o, os, h1, h2, rfl⟩ := run_cons_inv env r c cs w w1 _ h
    cases c with
    | Collect =>
      obtain ⟨ms, hc, _⟩ := call_Collect_inv env r w wa o h1
      obtain ⟨hcnt, _, _⟩ := Collect_counter env r w wa ms hc
      simp only [List.count_cons_self, Nat.cast_add, Nat.cast_one] at hhi ⊢
      have hw : wa.collectCounter = w.collectCounter + 1 := by
        rw [hcnt]
        exact wrapInt_eq_self _ hb _ (by omega) (by omega)
      rw [ih wa w1 os h2 (by omega) (by omega), hw]
      omega
    | Describe =>
      rw [call_Describe] at h1
      cases h1
      have hne : (Call.Describe == Call.Collect) = false := by decide
      simp only [List.count_cons, hne] at hhi ⊢
      simpa using ih w w1 os h2 hlo (by simpa using hhi)

end exporter

/-! ## One call of the collector -/

namespace exporter

open prometheus

theorem env64_range (g : Nat) : 0 ≤ (env64.Float64 g).1 ∧ (env64.Float64 g).1 < 1 := by
  have h : (0 : ℚ) < (g : ℚ) + 2 := by positivity
  constructor
  · show (0 : ℚ) ≤ 1 / ((g : ℚ) + 2)
    positivity
  · show 1 / ((g : ℚ) + 2) < 1
    rw [div_lt_one h]
    have : (0 : ℚ) ≤ (g : ℚ) := by positivity
    linarith

/-- C2: for every value of `collectCounter` at entry and every receiver, one call
of `Collect` returns, having sent exactly one sample when the counter is below 5
and none when it is 5 or more; in no state has it sent more than one. -/
theorem Collect_sends_one_iff_active {G : Type} (env : Env G) (r : exporter.randomNumber)
    (w : World G) :
    ∃ w1 ms, r.Collect env w = Except.ok (w1, ms) ∧
      ms.length = (if w.collectCounter < 5 then 1 else 0) ∧ ms.length ≤ 1 := by
  refine ⟨_, _, Collect_eq env r w, ?_, ?_⟩ <;> split <;> simp

/-- C5: `Describe` sends exactly one descriptor, the receiver's own field, in
every state, and leaves the state (so `collectCounter`) as it is; after any
number of `Collect` calls it sends the same descriptor as before them. -/
theorem Describe_sends_own_descriptor {G : Type} (env : Env G) (r : exporter.randomNumber)
    (w : World G) (n : Nat) :
    r.Describe w = (w, [r.randomNumber]) ∧
      ∃ w1 outs, run env r (List.replicate n Call.Collect) w = Except.ok (w1, outs) ∧
        r.Describe w1 = (w1, [r.randomNumber]) ∧
        (r.Describe w1).1.collectCounter = w1.collectCounter ∧
        (r.Describe w1).2 = (r.Describe w).2 := by
  refine ⟨rfl, ?_⟩
  obtain ⟨w1, outs, h⟩ := run_total env r (List.replicate n Call.Collect) w
  exact ⟨w1, outs, h, rfl, rfl, rfl⟩

/-- C7: a call of `Collect` sends a sample exactly in the active state, and the
value of the sample is the number just drawn from the random source, which has
advanced by that one draw; when the source draws from `[0, 1)` the value lies in
`[0, 1)`. -/
theorem Collect_value_in_unit_interval {G : Type} (env : Env G)
    (hrange : ∀ g, 0 ≤ (env.Float64 g).1 ∧ (env.Float64 g).1 < 1)
    (r : exporter.randomNumber) (w : World G) :
    ∃ w1 ms, r.Collect env w = Except.ok (w1, ms) ∧
      ms.length = (if w.collectCounter < 5 then 1 else 0) ∧
      ∀ m ∈ ms, m.val = (env.Float64 w.randSrc).1 ∧
        w1.randSrc = (env.Float64 w.randSrc).2 ∧ 0 ≤ m.val ∧ m.val < 1 := by
  refine ⟨_, _, Collect_eq env r w, ?_, ?_⟩
  · split <;> simp
  · intro m hm
    by_cases h : w.collectCounter < 5
    · simp only [h, if_true, List.mem_singleton] at hm
      subst hm
      refine ⟨rfl, ?_, (hrange w.randSrc).1, (hrange w.randSrc).2⟩
      simp [h]
    · simp [h] at hm

/-- Witness of C7: the first call of the registered collector with 64-bit `int`
and the source whose `g`-th draw is `1 / (g + 2)`. -/
theorem Collect_value_in_unit_interval_witness :
    (∀ g, 0 ≤ (env64.Float64 g).1 ∧ (env64.Float64 g).1 < 1) ∧
      ∃ w1 ms, collector.Collect env64 (processStart 0 []) = Except.ok (w1, ms) ∧
        ms.length = (if (processStart 0 [] : World Nat).collectCounter < 5 then 1 else 0) ∧
        ∀ m ∈ ms, m.val = (env64.Float64 (processStart 0 [] : World Nat).randSrc).1 ∧
          w1.randSrc = (env64.Float64 (processStart 0 [] : World Nat).randSrc).2 ∧
          0 ≤ m.val ∧ m.val < 1 :=
  ⟨env64_range, Collect_value_in_unit_interval env64 env64_range collector (processStart 0 [])⟩

/-- C9: `Collect` returns in every state, whatever the random source draws:
`randomNumberDesc` is a descriptor without error and without variable labels,
`Collect` passes no label values, so `MustNewConstMetric` does not panic. -/
theorem Collect_cannot_fail {G : Type} (env : Env G) (r : exporter.randomNumber)
    (w : World G) :
    (∃ res, r.Collect env w = Except.ok res) ∧
      (∃ d, randomNumberDesc = some d ∧ d.err = none ∧ d.variableLabels = []) ∧
      ∀ x : ℚ, ∃ m, MustNewConstMetric randomNumberDesc ValueType.GaugeValue x [] =
        Except.ok m :=
  ⟨⟨_, Collect_eq env r w⟩, ⟨_, randomNumberDesc_eq, rfl, rfl⟩,
    fun x => ⟨_, mustNew_randomNumberDesc ValueType.GaugeValue x⟩⟩

/-- C6, as amended: for every collector whose field is the package variable
`randomNumberDesc`, as is the collector `main` registers, and every active state,
`Collect` sends one sample of kind gauge whose descriptor is the one `Describe`
sends. -/
theorem Collect_sample_has_described_descriptor {G : Type} (env : Env G)
    (r : exporter.randomNumber) (w : World G) (hr : r.randomNumber = randomNumberDesc)
    (hactive : w.collectCounter < 5) :
    ∃ w1 m, r.Collect env w = Except.ok (w1, [m]) ∧ m.valType = ValueType.GaugeValue ∧
      (r.Describe w).2 = [some m.desc] := by
  refine ⟨_, _, Collect_active env r w hactive, rfl, ?_⟩
  show [r.randomNumber] = _
  rw [hr, randomNumberDesc_eq]

/-- Witness of C6 as amended: the collector of `main` at process start. -/
theorem Collect_sample_has_described_descriptor_witness :
    collector.randomNumber = randomNumberDesc ∧
      (processStart 0 [] : World Nat).collectCounter < 5 ∧
      ∃ w1 m, collector.Collect env64 (processStart 0 []) = Except.ok (w1, [m]) ∧
        m.valType = ValueType.GaugeValue ∧
        (collector.Describe (processStart 0 [] : World Nat)).2 = [some m.desc] :=
  ⟨rfl, by decide,
    Collect_sample_has_described_descriptor env64 collector (processStart 0 []) rfl (by decide)⟩

/-- C6 fails as stated: the zero value `randomNumber{}` is a collector whose
`Collect` sends, at process start, a sample with the descriptor
`randomNumberDesc`, while its `Describe` sends the nil descriptor. -/
theorem Collect_ignores_receiver_descriptor :
    ∃ w1 m, (⟨none⟩ : exporter.randomNumber).Collect env64 (processStart 0 []) =
        Except.ok (w1, [m]) ∧
      some m.desc = randomNumberDesc ∧
      ((⟨none⟩ : exporter.randomNumber).Describe (processStart 0 [] : World Nat)).2 ≠
        [some m.desc] := by
  refine ⟨_, _, Collect_active env64 ⟨none⟩ (processStart 0 []) (by decide), ?_, ?_⟩
  · rw [randomNumberDesc_eq]
  · simp [randomNumber.Describe]

end exporter

/-! ## The gauge of the direct instrumentation -/

namespace direct

open prometheus

/-- C8: after a tick, a collection pass reads exactly the value the tick has
drawn and written, whatever the gauge held before, and does not change the state;
any number of passes in a row read that same value and leave the state as the
tick has left it. -/
theorem collect_reads_last_tick {G : Type} (env : Env G) (w : World G) (n : Nat) :
    (collect (tick env w)).2 =
        [⟨w.randomNumber.desc, ValueType.GaugeValue, (env.Float64 w.randSrc).1, []⟩] ∧
      (collect (tick env w)).1 = tick env w ∧
      collects n (tick env w) = (tick env w, List.replicate n
        [⟨w.randomNumber.desc, ValueType.GaugeValue, (env.Float64 w.randSrc).1, []⟩]) := by
  refine ⟨rfl, rfl, ?_⟩
  induction n with
  | zero => rfl
  | succ n ih =>
    simp only [collects, List.replicate_succ]
    rw [show (collect (tick env w)).1 = tick env w from rfl, ih]
    rfl

end direct

/-! ## Sequential runs of the collector -/

namespace exporter

open prometheus

theorem count_replicate_Collect (k : Nat) :
    (List.replicate k Call.Collect).count Call.Collect = k := by
  simp

theorem run_samples {G : Type} (env : Env G) (r : exporter.randomNumber)
    (hb : 0 < env.intBits) :
    ∀ (k : Nat) (w w1 : World G) (outs : List Sent),
      run env r (List.replicate k Call.Collect) w = Except.ok (w1, outs) →
      minInt env.intBits ≤ w.collectCounter →
      w.collectCounter + (k : Nat) ≤ maxInt env.intBits →
      outs.map (fun o => o.samples.length) =
        (List.range k).map (fun i => if w.collectCounter + (i : Nat) < 5 then 1 else 0) := by
  intro k
  induction k with
  | zero => intro w w1 outs h _ _; rw [List.replicate_zero, run_nil] at h; cases h; rfl
  | succ k ih =>
    intro w w1 outs h hlo hhi
    rw [List.replicate_succ] at h
    obtain ⟨wa, o, os, h1, h2, rfl⟩ := run_cons_inv env r _ _ w w1 _ h
    obtain ⟨ms, hc, rfl⟩ := call_Collect_inv env r w wa o h1
    obtain ⟨hcnt, _, hlen⟩ := Collect_counter env r w wa ms hc
    push_cast at hhi
    have hw : wa.collectCounter = w.collectCounter + 1 := by
      rw [hcnt]
      exact wrapInt_eq_self _ hb _ (by omega) (by omega)
    have := ih wa w1 os h2 (by omega) (by omega)
    rw [List.range_succ_eq_map, List.map_cons, List.map_cons, this, List.map_map]
    simp only [Sent.samples, hlen, Nat.cast_zero, add_zero, hw]
    congr 1
    apply List.map_congr_left
    intro i _
    simp only [Function.comp, Nat.succ_eq_add_one, Nat.cast_add, Nat.cast_one]
    have : w.collectCounter + 1 + (i : Int) = w.collectCounter + ((i : Int) + 1) := by ring
    rw [this]

theorem run_exhausted {G : Type} (env : Env G) (r : exporter.randomNumber)
    (hb : 0 < env.intBits) :
    ∀ (cs : List Call) (w w1 : World G) (outs : List Sent),
      run env r cs w = Except.ok (w1, outs) → 5 ≤ w.collectCounter →
      w.collectCounter + (cs.count Call.Collect : Nat) ≤ maxInt env.intBits →
      ∀ o ∈ outs, o.samples = [] := by
  intro cs
  induction cs with
  | nil => intro w w1 outs h _ _; rw [run_nil] at h; cases h; simp
  | cons c cs ih =>
    intro w w1 outs h h5 hhi
    have hlo : minInt env.intBits ≤ w.collectCounter := by
      have := minInt_le_zero env.intBits
      omega
    obtain ⟨wa, o, os, h1, h2, rfl⟩ := run_cons_inv env r c cs w w1 _ h
    cases c with
    | Collect =>
      obtain ⟨ms, hc, rfl⟩ := call_Collect_inv env r w wa o h1
      obtain ⟨hcnt, _, hlen⟩ := Collect_counter env r w wa ms hc
      simp only [List.count_cons_self, Nat.cast_add, Nat.cast_one] at hhi
      have hw : wa.collectCounter = w.collectCounter + 1 := by
        rw [hcnt]
        exact wrapInt_eq_self _ hb _ (by omega) (by omega)
      have hms : ms = [] := by
        have : ¬ w.collectCounter < 5 := by omega
        simp only [this, if_false] at hlen
        exact List.length_eq_zero.mp hlen
      intro o ho
      rcases List.mem_cons.mp ho with rfl | ho
      · simp [Sent.samples, hms]
      · exact ih wa w1 os h2 (by omega) (by omega) o ho
    | Describe =>
      rw [call_Describe] at h1
      cases h1
      have hne : (Call.Describe == Call.Collect) = false := by decide
      simp only [List.count_cons, hne] at hhi
      intro o ho
      rcases List.mem_cons.mp ho with rfl | ho
      · rfl
      · exact ih w w1 os h2 h5 (by simpa using hhi) o ho

end exporter

namespace exporter

open prometheus

theorem nthCollect_eq {G : Type} (env : Env G) (r : exporter.randomNumber) (n : Nat)
    (w w0 : World G) (outs : List Sent)
    (h : run env r (List.replicate (n - 1) Call.Collect) w = Except.ok (w0, outs)) :
    nthCollect env r n w = r.Collect env w0 := by
  simp [nthCollect, h, bind, Except.bind]

theorem run_before_nth {G : Type} (env : Env G) (r : exporter.randomNumber)
    (hb : 0 < env.intBits) (g : G) (log : List String) (n : Nat) (h1 : 1 ≤ n)
    (hn : (n : Int) ≤ maxInt env.intBits + 1) :
    ∃ w0 outs, run env r (List.replicate (n - 1) Call.Collect) (processStart g log) =
        Except.ok (w0, outs) ∧ w0.collectCounter = (n : Int) - 1 := by
  obtain ⟨w0, outs, h⟩ := run_total env r (List.replicate (n - 1) Call.Collect)
    (processStart g log)
  refine ⟨w0, outs, h, ?_⟩
  have hc := run_counter env r hb _ _ w0 outs h (minInt_le_zero _)
    (by rw [count_replicate_Collect]; show (0 : Int) + _ ≤ _; push_cast [Nat.cast_sub h1]; omega)
  rw [hc, count_replicate_Collect]
  show (0 : Int) + _ = _
  push_cast [Nat.cast_sub h1]
  omega

theorem nthCollect_after_wrap {G : Type} (env : Env G) (r : exporter.randomNumber)
    (hb : 0 < env.intBits) (g : G) (log : List String) (N : Nat)
    (hN : (N : Int) = maxInt env.intBits) :
    ∃ w1 m, nthCollect env r (N + 2) (processStart g log) = Except.ok (w1, [m]) := by
  obtain ⟨wa, oa, ha⟩ := run_total env r (List.replicate N Call.Collect) (processStart g log)
  have hca := run_counter env r hb _ _ wa oa ha (minInt_le_zero _)
    (by rw [count_replicate_Collect]; show (0 : Int) + _ ≤ _; omega)
  rw [count_replicate_Collect] at hca
  have hwa : wa.collectCounter = maxInt env.intBits := by
    rw [hca, ← hN]; show (0 : Int) + _ = _; omega
  have hb1 := run_cons_ok env r Call.Collect [] wa _ _ _ []
    (call_Collect env r wa _ _ (Collect_eq env r wa)) (run_nil env r _)
  have hab := run_append_ok env r _ _ _ _ _ _ _ ha hb1
  rw [← List.replicate_succ'] at hab
  have hnth := nthCollect_eq env r (N + 2) (processStart g log) _ _ hab
  rw [hnth]
  refine ⟨_, _, Collect_active env r _ ?_⟩
  show wrapInt env.intBits (wa.collectCounter + 1) < 5
  rw [hwa, wrapInt_maxInt_succ _ hb]
  have := minInt_le_zero env.intBits
  omega

/-- C1, as amended: from process start, as long as the counter has not wrapped
round (call number `n` with `1 ≤ n ≤ maxInt + 1`), the `n`-th call of `Collect`
sends exactly one sample when `n ≤ 5` and none when `n ≥ 6`; over 7 calls samples
are sent on calls 1 to 5, none on calls 6 and 7, and the state after call 7 is
exhausted. -/
theorem nthCollect_sends_iff_first_five {G : Type} (env : Env G)
    (hb : env.intBits = 32 ∨ env.intBits = 64) (r : exporter.randomNumber) (g : G)
    (log : List String) :
    (∀ n : Nat, 1 ≤ n → (n : Int) ≤ maxInt env.intBits + 1 →
        ∃ w1 ms, nthCollect env r n (processStart g log) = Except.ok (w1, ms) ∧
          ms.length = (if n ≤ 5 then 1 else 0)) ∧
      ∃ w7 outs, run env r (List.replicate 7 Call.Collect) (processStart g log) =
          Except.ok (w7, outs) ∧
        outs.map (fun o => o.samples.length) = [1, 1, 1, 1, 1, 0, 0] ∧
        5 ≤ w7.collectCounter := by
  have hpos := bits_pos _ hb
  have h7 := seven_le_maxInt _ hb
  constructor
  · intro n h1 hn
    obtain ⟨w0, outs, h0, hc0⟩ := run_before_nth env r hpos g log n h1 hn
    rw [nthCollect_eq env r n _ w0 outs h0]
    refine ⟨_, _, Collect_eq env r w0, ?_⟩
    rw [hc0]
    by_cases h : n ≤ 5
    · have : (n : Int) - 1 < 5 := by omega
      simp [h, this]
    · have : ¬ (n : Int) - 1 < 5 := by omega
      simp [h, this]
  · obtain ⟨w7, outs, h⟩ := run_total env r (List.replicate 7 Call.Collect) (processStart g log)
    have hfit : (processStart g log).collectCounter + ((7 : Nat) : Int) ≤ maxInt env.intBits := by
      show (0 : Int) + _ ≤ _
      push_cast
      omega
    refine ⟨w7, outs, h, ?_, ?_⟩
    · rw [run_samples env r hpos 7 _ w7 outs h (minInt_le_zero _) hfit]
      show List.map (fun i : Nat => if (0 : Int) + (i : Int) < 5 then 1 else 0) (List.range 7) = _
      decide
    · have hc := run_counter env r hpos _ _ w7 outs h (minInt_le_zero _)
        (by rw [count_replicate_Collect]; exact hfit)
      rw [hc, count_replicate_Collect]
      show (5 : Int) ≤ 0 + ((7 : Nat) : Int)
      norm_num

/-- Witness of C1 as amended: the collector of `main` with 64-bit `int`. -/
theorem nthCollect_sends_iff_first_five_witness :
    (env64.intBits = 32 ∨ env64.intBits = 64) ∧
      ((∀ n : Nat, 1 ≤ n → (n : Int) ≤ maxInt env64.intBits + 1 →
          ∃ w1 ms, nthCollect env64 collector n (processStart 0 []) = Except.ok (w1, ms) ∧
            ms.length = (if n ≤ 5 then 1 else 0)) ∧
        ∃ w7 outs, run env64 collector (List.replicate 7 Call.Collect) (processStart 0 []) =
            Except.ok (w7, outs) ∧
          outs.map (fun o => o.samples.length) = [1, 1, 1, 1, 1, 0, 0] ∧
          5 ≤ w7.collectCounter) :=
  ⟨Or.inr rfl, nthCollect_sends_iff_first_five env64 (Or.inr rfl) collector 0 []⟩

/-- C1 fails as stated: with 64-bit `int` the counter has wrapped round to the
smallest `int` after `2 ^ 63` calls, and call number `2 ^ 63 + 1`, which is not
among the first five, sends a sample. -/
theorem nthCollect_sends_after_wrap :
    6 ≤ 9223372036854775809 ∧
      ∃ w1 m, nthCollect env64 collector 9223372036854775809 (processStart 0 []) =
        Except.ok (w1, [m]) :=
  ⟨by decide, nthCollect_after_wrap env64 collector (by decide) 0 [] 9223372036854775807
    (by decide)⟩

end exporter

namespace exporter

open prometheus

theorem count_take_le (cs : List Call) (k : Nat) :
    (cs.take k).count Call.Collect ≤ cs.count Call.Collect :=
  (List.take_sublist k cs).count_le Call.Collect

/-- C3, as amended: from a state with `collectCounter ≥ 5`, along every finite
sequence of `Collect` and `Describe` calls that keeps the counter within the range
of `int` (the counter plus the number of `Collect` calls is at most the largest
`int`), after each of the calls the state is still exhausted and none of the calls
made so far has sent a sample. -/
theorem exhausted_is_permanent_below_maxInt {G : Type} (env : Env G)
    (hb : env.intBits = 32 ∨ env.intBits = 64) (r : exporter.randomNumber) (w : World G)
    (cs : List Call) (h5 : 5 ≤ w.collectCounter)
    (hfit : w.collectCounter + (cs.count Call.Collect : Nat) ≤ maxInt env.intBits)
    (k : Nat) :
    ∃ w1 outs, run env r (cs.take k) w = Except.ok (w1, outs) ∧ outs.length = (cs.take k).length ∧
      5 ≤ w1.collectCounter ∧ ∀ o ∈ outs, o.samples = [] := by
  have hpos := bits_pos _ hb
  obtain ⟨w1, outs, h⟩ := run_total env r (cs.take k) w
  have hle : (((cs.take k).count Call.Collect : Nat) : Int) ≤ (cs.count Call.Collect : Nat) := by
    exact_mod_cast count_take_le cs k
  have hlo : minInt env.intBits ≤ w.collectCounter := by
    have := minInt_le_zero env.intBits
    omega
  refine ⟨w1, outs, h, run_length env r _ _ _ _ h, ?_,
    run_exhausted env r hpos _ _ _ _ h h5 (by omega)⟩
  rw [run_counter env r hpos _ _ _ _ h hlo (by omega)]
  omega

/-- Witness of C3 as amended: the collector of `main` after five calls, followed
by a scrape of four calls. -/
theorem exhausted_is_permanent_below_maxInt_witness :
    (env64.intBits = 32 ∨ env64.intBits = 64) ∧
      5 ≤ (⟨5, 5, []⟩ : World Nat).collectCounter ∧
      (⟨5, 5, []⟩ : World Nat).collectCounter +
        (([Call.Describe, Call.Collect, Call.Collect, Call.Describe].count Call.Collect : Nat) : Int)
          ≤ maxInt env64.intBits ∧
      ∃ w1 outs, run env64 collector
          ([Call.Describe, Call.Collect, Call.Collect, Call.Describe].take 3) ⟨5, 5, []⟩ =
            Except.ok (w1, outs) ∧
        outs.length = ([Call.Describe, Call.Collect, Call.Collect, Call.Describe].take 3).length ∧
        5 ≤ w1.collectCounter ∧ ∀ o ∈ outs, o.samples = [] :=
  ⟨Or.inr rfl, by decide, by decide,
    exhausted_is_permanent_below_maxInt env64 (Or.inr rfl) collector ⟨5, 5, []⟩
      [Call.Describe, Call.Collect, Call.Collect, Call.Describe] (by decide) (by decide) 3⟩

/-- C3 fails as stated: with 64-bit `int`, in the exhausted state whose counter is
the largest `int`, the first of two `Collect` calls sends nothing and wraps the
counter round to the smallest `int`, and the second sends a sample. -/
theorem exhausted_reactivates_at_maxInt :
    5 ≤ (⟨9223372036854775807, 0, []⟩ : World Nat).collectCounter ∧
      ∃ w2 m, run env64 collector [Call.Collect, Call.Collect] ⟨9223372036854775807, 0, []⟩ =
        Except.ok (w2, [Sent.metrics [], Sent.metrics [m]]) := by
  refine ⟨by decide, ?_⟩
  have h1 := Collect_exhausted env64 collector ⟨9223372036854775807, 0, []⟩ (by decide)
  have h2 := Collect_active env64 collector
    ⟨wrapInt env64.intBits (9223372036854775807 + 1), 0, [] ++ [logLine 9223372036854775807]⟩
    (by decide)
  exact ⟨_, _, run_cons_ok env64 collector _ _ _ _ _ _ _ (call_Collect _ _ _ _ _ h1)
    (run_cons_ok env64 collector _ _ _ _ _ _ _ (call_Collect _ _ _ _ _ h2) (run_nil _ _ _))⟩

/-- C4, as amended: a call of `Collect` made with `collectCounter` below the
largest `int` increases it by exactly one, whether or not it sends a sample; along
a sequential run that keeps the counter within the range of `int` the counter
grows by the number of `Collect` calls and never decreases; from process start,
for every `k` from 1 to the largest `int`, the `k`-th call finds and logs the
value `k - 1` and leaves the value `k`. -/
theorem Collect_increments_below_maxInt {G : Type} (env : Env G)
    (hb : env.intBits = 32 ∨ env.intBits = 64) (r : exporter.randomNumber) :
    (∀ w : World G, minInt env.intBits ≤ w.collectCounter →
        w.collectCounter < maxInt env.intBits →
        ∃ w1 ms, r.Collect env w = Except.ok (w1, ms) ∧
          w1.collectCounter = w.collectCounter + 1) ∧
      (∀ (cs : List Call) (w : World G), minInt env.intBits ≤ w.collectCounter →
        w.collectCounter + (cs.count Call.Collect : Nat) ≤ maxInt env.intBits →
        ∃ w1 outs, run env r cs w = Except.ok (w1, outs) ∧
          w1.collectCounter = w.collectCounter + (cs.count Call.Collect : Nat) ∧
          w.collectCounter ≤ w1.collectCounter) ∧
      (∀ (g : G) (log : List String) (k : Nat), 1 ≤ k → (k : Int) ≤ maxInt env.intBits →
        ∃ w0 outs w1 ms,
          run env r (List.replicate (k - 1) Call.Collect) (processStart g log) =
            Except.ok (w0, outs) ∧
          w0.collectCounter = (k : Int) - 1 ∧
          r.Collect env w0 = Except.ok (w1, ms) ∧
          w1.log = w0.log ++ [logLine ((k : Int) - 1)] ∧
          w1.collectCounter = (k : Int)) := by
  have hpos := bits_pos _ hb
  refine ⟨?_, ?_, ?_⟩
  · intro w hlo hhi
    refine ⟨_, _, Collect_eq env r w, ?_⟩
    exact wrapInt_eq_self _ hpos _ (by omega) (by omega)
  · intro cs w hlo hhi
    obtain ⟨w1, outs, h⟩ := run_total env r cs w
    have hc := run_counter env r hpos _ _ _ _ h hlo hhi
    exact ⟨w1, outs, h, hc, by omega⟩
  · intro g log k h1 hk
    obtain ⟨w0, outs, h0, hc0⟩ := run_before_nth env r hpos g log k h1 (by omega)
    refine ⟨w0, outs, _, _, h0, hc0, Collect_eq env r w0, ?_, ?_⟩
    · show w0.log ++ [logLine w0.collectCounter] = _
      rw [hc0]
    · show wrapInt env.intBits (w0.collectCounter + 1) = _
      rw [hc0]
      have := minInt_le_zero env.intBits
      rw [wrapInt_eq_self _ hpos _ (by omega) (by omega)]
      omega

/-- Witness of C4 as amended: the collector of `main` with 64-bit `int`. -/
theorem Collect_increments_below_maxInt_witness :
    (env64.intBits = 32 ∨ env64.intBits = 64) ∧
      ∃ w1 ms, collector.Collect env64 (processStart 0 []) = Except.ok (w1, ms) ∧
        w1.collectCounter = (processStart 0 [] : World Nat).collectCounter + 1 :=
  ⟨Or.inr rfl,
    (Collect_increments_below_maxInt env64 (Or.inr rfl) collector).1 (processStart 0 [])
      (by decide) (by decide)⟩

/-- C4 fails as stated: with 64-bit `int`, a call of `Collect` made with
`collectCounter` at the largest `int` leaves it at the smallest `int`, which is
neither one more nor greater. -/
theorem Collect_wraps_at_maxInt :
    ∃ w1 ms, collector.Collect env64 ⟨9223372036854775807, 0, []⟩ = Except.ok (w1, ms) ∧
      w1.collectCounter = -9223372036854775808 ∧
      w1.collectCounter ≠ (⟨9223372036854775807, 0, []⟩ : World Nat).collectCounter + 1 ∧
      w1.collectCounter < (⟨9223372036854775807, 0, []⟩ : World Nat).collectCounter := by
  refine ⟨_, _, Collect_exhausted env64 collector ⟨9223372036854775807, 0, []⟩ (by decide),
    ?_, ?_, ?_⟩ <;> decide

end exporter

/-! ## Overlapping calls -/

namespace exporter

open prometheus

theorem runSchedule_nil {G : Type} (env : Env G) (s : Conc G) :
    runSchedule env [] s = Except.ok s := rfl

theorem runSchedule_cons_ok {G : Type} (env : Env G) (i : Nat) (is : List Nat)
    (s s1 : Conc G) (h : stepConc env i s = Except.ok s1) :
    runSchedule env (i :: is) s = runSchedule env is s1 := by
  simp [runSchedule, h, bind, Except.bind]

theorem runSchedule_append_ok {G : Type} (env : Env G) :
    ∀ (is js : List Nat) (s s1 s2 : Conc G), runSchedule env is s = Except.ok s1 →
      runSchedule env js s1 = Except.ok s2 → runSchedule env (is ++ js) s = Except.ok s2 := by
  intro is
  induction is with
  | nil =>
    intro js s s1 s2 h1 h2
    rw [runSchedule_nil] at h1
    cases h1
    simpa using h2
  | cons i is ih =>
    intro js s s1 s2 h1 h2
    cases hs : stepConc env i s with
    | error e => simp [runSchedule, hs, bind, Except.bind] at h1
    | ok sa =>
      rw [runSchedule_cons_ok env i is s sa hs] at h1
      rw [List.cons_append, runSchedule_cons_ok env i (is ++ js) s sa hs]
      exact ih js sa s1 s2 h1 h2

theorem stepConc_at {G : Type} (env : Env G) (i : Nat) (w w1 : World G) (ts : List Thread)
    (t t1 : Thread) (ht : ts[i]? = some t) (h : stepThread env w t = Except.ok (w1, t1)) :
    stepConc env i ⟨w, ts⟩ = Except.ok ⟨w1, ts.set i t1⟩ := by
  simp [stepConc, ht, h, bind, Except.bind, pure, Except.pure]

theorem set_of_getElem? (ts : List Thread) :
    ∀ (i : Nat) (t : Thread), ts[i]? = some t → ts.set i t = ts := by
  induction ts with
  | nil => intro i t h; rfl
  | cons a ts ih =>
    intro i t h
    cases i with
    | zero => simp at h; simp [h]
    | succ i => simp at h; simp [ih i t h]

theorem lt_length_of_getElem? (ts : List Thread) (i : Nat) (t : Thread)
    (ht : ts[i]? = some t) : i < ts.length := by
  by_contra hcon
  rw [List.getElem?_eq_none (by omega)] at ht
  cases ht

theorem runSchedule_step {G : Type} (env : Env G) (i : Nat) (is : List Nat) (w w1 : World G)
    (ts : List Thread) (t t1 : Thread) (hi : i < ts.length)
    (h : stepThread env w t = Except.ok (w1, t1)) :
    runSchedule env (i :: is) ⟨w, ts.set i t⟩ = runSchedule env is ⟨w1, ts.set i t1⟩ := by
  have ht : (ts.set i t)[i]? = some t := List.getElem?_set_self hi
  rw [runSchedule_cons_ok env i is _ _ (stepConc_at env i w w1 _ t t1 ht h), List.set_set]

theorem runSchedule_log {G : Type} (env : Env G) (i : Nat) (is : List Nat) (w : World G)
    (ts : List Thread) (ch : List Metric) (hi : i < ts.length) :
    runSchedule env (i :: is) ⟨w, ts.set i ⟨PC.log, ch⟩⟩ =
      runSchedule env is
        ⟨⟨w.collectCounter, w.randSrc, w.log ++ [logLine w.collectCounter]⟩,
          ts.set i ⟨PC.test, ch⟩⟩ :=
  runSchedule_step env i is w _ ts _ _ hi rfl

theorem runSchedule_test_active {G : Type} (env : Env G) (i : Nat) (is : List Nat)
    (w : World G) (ts : List Thread) (ch : List Metric) (hi : i < ts.length)
    (hc : w.collectCounter < 5) :
    runSchedule env (i :: is) ⟨w, ts.set i ⟨PC.test, ch⟩⟩ =
      runSchedule env is ⟨w, ts.set i ⟨PC.send, ch⟩⟩ :=
  runSchedule_step env i is w _ ts _ _ hi (by simp [stepThread, hc]; rfl)

theorem runSchedule_test_exhausted {G : Type} (env : Env G) (i : Nat) (is : List Nat)
    (w : World G) (ts : List Thread) (ch : List Metric) (hi : i < ts.length)
    (hc : ¬ w.collectCounter < 5) :
    runSchedule env (i :: is) ⟨w, ts.set i ⟨PC.test, ch⟩⟩ =
      runSchedule env is ⟨w, ts.set i ⟨PC.load, ch⟩⟩ :=
  runSchedule_step env i is w _ ts _ _ hi (by simp [stepThread, hc]; rfl)

theorem runSchedule_send {G : Type} (env : Env G) (i : Nat) (is : List Nat) (w : World G)
    (ts : List Thread) (ch : List Metric) (hi : i < ts.length) :
    runSchedule env (i :: is) ⟨w, ts.set i ⟨PC.send, ch⟩⟩ =
      runSchedule env is
        ⟨⟨w.collectCounter, (env.Float64 w.randSrc).2, w.log⟩,
          ts.set i ⟨PC.load, ch ++ [⟨⟨"random_number_generated", "A randomly generated number",
            [("app", "random_number_generator")], [], none⟩,
            ValueType.GaugeValue, (env.Float64 w.randSrc).1, []⟩]⟩⟩ :=
  runSchedule_step env i is w _ ts _ _ hi
    (by simp [stepThread, mustNew_randomNumberDesc, bind, Except.bind, pure, Except.pure])

theorem runSchedule_load {G : Type} (env : Env G) (i : Nat) (is : List Nat) (w : World G)
    (ts : List Thread) (ch : List Metric) (hi : i < ts.length) :
    runSchedule env (i :: is) ⟨w, ts.set i ⟨PC.load, ch⟩⟩ =
      runSchedule env is ⟨w, ts.set i ⟨PC.store w.collectCounter, ch⟩⟩ :=
  runSchedule_step env i is w _ ts _ _ hi rfl

theorem runSchedule_store {G : Type} (env : Env G) (i : Nat) (is : List Nat) (w : World G)
    (ts : List Thread) (ch : List Metric) (v : Int) (hi : i < ts.length) :
    runSchedule env (i :: is) ⟨w, ts.set i ⟨PC.store v, ch⟩⟩ =
      runSchedule env is
        ⟨⟨wrapInt env.intBits (v + 1), w.randSrc, w.log⟩, ts.set i ⟨PC.done, ch⟩⟩ :=
  runSchedule_step env i is w _ ts _ _ hi rfl

theorem runSchedule_done {G : Type} (env : Env G) (i : Nat) (is : List Nat) (w : World G)
    (ts : List Thread) (ch : List Metric) (hi : i < ts.length) :
    runSchedule env (i :: is) ⟨w, ts.set i ⟨PC.done, ch⟩⟩ =
      runSchedule env is ⟨w, ts.set i ⟨PC.done, ch⟩⟩ :=
  runSchedule_step env i is w _ ts _ _ hi rfl

/-- A call that makes its five steps with no other call in between does what
`Collect` does. -/
theorem runSchedule_one_call {G : Type} (env : Env G) (r : exporter.randomNumber) (i : Nat)
    (w w1 : World G) (ms : List Metric) (ts : List Thread)
    (ht : ts[i]? = some Thread.start) (h : r.Collect env w = Except.ok (w1, ms)) :
    runSchedule env (List.replicate 5 i) ⟨w, ts⟩ = Except.ok ⟨w1, ts.set i ⟨PC.done, ms⟩⟩ := by
  have hi := lt_length_of_getElem? ts i _ ht
  have h0 : runSchedule env (List.replicate 5 i) ⟨w, ts⟩ =
      runSchedule env [i, i, i, i, i] ⟨w, ts.set i ⟨PC.log, []⟩⟩ := by
    rw [show (⟨PC.log, []⟩ : Thread) = Thread.start from rfl, set_of_getElem? ts i _ ht]
    rfl
  rw [h0, runSchedule_log env i _ w ts [] hi]
  by_cases hc : w.collectCounter < 5
  · rw [Collect_active env r w hc] at h
    cases h
    rw [runSchedule_test_active env i _
        ⟨w.collectCounter, w.randSrc, w.log ++ [logLine w.collectCounter]⟩ ts [] hi hc, runSchedule_send env i _ _ ts [] hi,
      runSchedule_load env i _ _ ts _ hi, runSchedule_store env i _ _ ts _ _ hi, runSchedule_nil]
    rfl
  · rw [Collect_exhausted env r w (by omega)] at h
    cases h
    rw [runSchedule_test_exhausted env i _
        ⟨w.collectCounter, w.randSrc, w.log ++ [logLine w.collectCounter]⟩ ts [] hi hc, runSchedule_load env i _ _ ts _ hi,
      runSchedule_store env i _ _ ts _ _ hi, runSchedule_done env i _ _ ts _ hi, runSchedule_nil]

end exporter

namespace exporter

open prometheus

theorem serialSchedule_succ (k : Nat) :
    serialSchedule (k + 1) = serialSchedule k ++ List.replicate 5 k := by
  simp [serialSchedule, List.range_succ]

/-- Calls that do not overlap do what a sequential run of `Collect` calls does. -/
theorem runSchedule_serial {G : Type} (env : Env G) (r : exporter.randomNumber) (w : World G)
    (N : Nat) :
    ∀ k : Nat, k ≤ N → ∃ (wk : World G) (mss : List (List Metric)),
      run env r (List.replicate k Call.Collect) w = Except.ok (wk, mss.map Sent.metrics) ∧
      mss.length = k ∧
      runSchedule env (serialSchedule k) (Conc.init w N) =
        Except.ok ⟨wk, mss.map (fun ms => (⟨PC.done, ms⟩ : Thread)) ++
          List.replicate (N - k) Thread.start⟩ := by
  intro k
  induction k with
  | zero =>
    intro _
    exact ⟨w, [], rfl, rfl, by simp [serialSchedule, Conc.init, runSchedule_nil]⟩
  | succ k ih =>
    intro hk
    obtain ⟨wk, mss, hrun, hlen, hsched⟩ := ih (by omega)
    obtain ⟨w1, o, hcall⟩ := call_total env r Call.Collect wk
    obtain ⟨ms, hcol, rfl⟩ := call_Collect_inv env r wk w1 o hcall
    have h1 := run_cons_ok env r Call.Collect [] wk w1 w1 _ [] hcall (run_nil env r w1)
    have h2 := run_append_ok env r _ _ _ _ _ _ _ hrun h1
    rw [← List.replicate_succ'] at h2
    refine ⟨w1, mss ++ [ms], by simpa using h2, by simp [hlen], ?_⟩
    rw [serialSchedule_succ]
    refine runSchedule_append_ok env _ _ _ _ _ hsched ?_
    have hlen' : (mss.map (fun ms => (⟨PC.done, ms⟩ : Thread))).length = k := by simp [hlen]
    have hrep : List.replicate (N - k) Thread.start =
        Thread.start :: List.replicate (N - (k + 1)) Thread.start := by
      rw [← List.replicate_succ]
      congr 1
      omega
    have ht : (mss.map (fun ms => (⟨PC.done, ms⟩ : Thread)) ++
        List.replicate (N - k) Thread.start)[k]? = some Thread.start := by
      rw [List.getElem?_append_right (by omega), hlen', hrep]
      simp
    rw [runSchedule_one_call env r k wk w1 ms _ ht hcol]
    congr 2
    rw [List.set_append_right _ _ (by omega), hlen', hrep]
    simp

theorem sum_first_five (N : Nat) (c : Int) (hc : c = 0) :
    ((List.range N).map (fun i : Nat => if c + (i : Int) < 5 then 1 else 0)).sum = min N 5 := by
  subst hc
  induction N with
  | zero => rfl
  | succ N ih =>
    rw [List.range_succ, List.map_append, List.sum_append, ih]
    simp only [List.map_cons, List.map_nil, List.sum_cons, List.sum_nil, zero_add, add_zero]
    split <;> omega

/-- C10, as amended: when `N` calls of `Collect` do not overlap (each makes all
its steps before the next starts), from process start and with `N` at most the
largest `int`, all calls return, together they have sent `min N 5` samples, at
most 5, and `collectCounter` has grown by exactly `N`. -/
theorem serial_calls_keep_count {G : Type} (env : Env G)
    (hb : env.intBits = 32 ∨ env.intBits = 64) (g : G) (log : List String) (N : Nat)
    (hN : (N : Int) ≤ maxInt env.intBits) :
    ∃ s, runSchedule env (serialSchedule N) (Conc.init (processStart g log) N) = Except.ok s ∧
      s.threads.length = N ∧ (∀ t ∈ s.threads, t.pc = PC.done) ∧
      s.samples = min N 5 ∧ s.samples ≤ 5 ∧
      s.world.collectCounter = (processStart g log).collectCounter + (N : Int) := by
  have hpos := bits_pos _ hb
  obtain ⟨wN, mss, hrun, hlen, hsched⟩ :=
    runSchedule_serial env collector (processStart g log) N N (le_refl N)
  have hfit : (processStart g log).collectCounter + ((N : Nat) : Int) ≤ maxInt env.intBits := by
    show (0 : Int) + _ ≤ _
    omega
  have hsamples := run_samples env collector hpos N _ wN _ hrun (minInt_le_zero _) hfit
  have hcount := run_counter env collector hpos _ _ wN _ hrun (minInt_le_zero _)
    (by rw [count_replicate_Collect]; exact hfit)
  rw [count_replicate_Collect] at hcount
  rw [List.map_map] at hsamples
  have hsum : ((mss.map (fun ms => (⟨PC.done, ms⟩ : Thread)) ++
      List.replicate (N - N) Thread.start).map (fun t => t.ch.length)).sum = min N 5 := by
    rw [← sum_first_five N (processStart g log).collectCounter rfl, ← hsamples]
    simp only [Nat.sub_self, List.replicate_zero, List.append_nil, List.map_map]
    rfl
  refine ⟨_, hsched, by simp [hlen], ?_, hsum, ?_, hcount⟩
  · intro t ht
    simp only [Nat.sub_self, List.replicate_zero, List.append_nil, List.mem_map] at ht
    obtain ⟨ms, _, rfl⟩ := ht
    rfl
  · show Conc.samples _ ≤ 5
    unfold Conc.samples
    rw [hsum]
    omega

/-- Witness of C10 as amended: seven calls that do not overlap, 64-bit `int`. -/
theorem serial_calls_keep_count_witness :
    (env64.intBits = 32 ∨ env64.intBits = 64) ∧ ((7 : Nat) : Int) ≤ maxInt env64.intBits ∧
      ∃ s, runSchedule env64 (serialSchedule 7) (Conc.init (processStart 0 []) 7) =
          Except.ok s ∧
        s.threads.length = 7 ∧ (∀ t ∈ s.threads, t.pc = PC.done) ∧
        s.samples = min 7 5 ∧ s.samples ≤ 5 ∧
        s.world.collectCounter = (processStart 0 [] : World Nat).collectCounter + ((7 : Nat) : Int) :=
  ⟨Or.inr rfl, by decide,
    serial_calls_keep_count env64 (Or.inr rfl) 0 [] 7 (by decide)⟩

/-- C10 fails as stated: six calls of `Collect` that overlap completely, from
process start, all pass the test before any of them writes the counter; together
they send six samples, more than 5, and the counter grows by one, not by six. -/
theorem overlapping_calls_lose_count :
    ∃ s, runSchedule env64 (lockstepSchedule 6) (Conc.init (processStart 0 []) 6) =
        Except.ok s ∧
      s.threads.map (fun t => t.pc) =
        [PC.done, PC.done, PC.done, PC.done, PC.done, PC.done] ∧
      s.samples = 6 ∧ s.world.collectCounter = 1 := by
  have key : (runSchedule env64 (lockstepSchedule 6) (Conc.init (processStart 0 []) 6)).map
      (fun s => (s.threads.map (fun t => t.pc), s.samples, s.world.collectCounter)) =
      Except.ok ([PC.done, PC.done, PC.done, PC.done, PC.done, PC.done], 6, 1) := by
    rfl
  cases h : runSchedule env64 (lockstepSchedule 6) (Conc.init (processStart 0 []) 6) with
  | error e => rw [h] at key; cases key
  | ok s =>
    rw [h] at key
    simp only [Except.map, Except.ok.injEq, Prod.mk.injEq] at key
    exact ⟨s, rfl, key.1, key.2.1, key.2.2⟩

end exporter
